import Mathlib

/-
Shallow embedding of the polling-station simulation (simulate.py).

Randomness model: the Python code draws from one seeded global stream
(random.random and random.expovariate).  In CPython every call to
random.expovariate consumes exactly one underlying uniform draw, so the
stream of RNG-call results is in bijection with the underlying seeded
stream.  We model the seeded stream as a function s : Nat -> Rat giving,
in consumption order, the value returned by the k-th RNG call
(the uniform value for a classification draw, the exponential variate for
a duration or gap draw).  A seeded generator is rng : Nat -> Nat -> Rat,
mapping a seed to its stream.  Times and rates are rationals.
-/

/-- Voter record, mirroring the Voter class: start and end times are unset
(none) until the voter is assigned a booth. -/
structure Voter where
  arrival_time : ℚ
  voting_duration : ℚ
  start_time : Option ℚ := none
  end_time : Option ℚ := none
deriving DecidableEq

/-- Mirrors Voter.update_startend_times: sets the start time and sets the
end time to start plus voting duration. -/
def Voter.update_startend_times (v : Voter) (st : ℚ) : Voter :=
  { v with start_time := some st, end_time := some (st + v.voting_duration) }

/-- One generated candidate voter of the arrival loop, instrumented with
which branch of the classification test ran (straight) and the stream
index of its classification draw (cIdx).  The arrival and duration fields
are exactly what the Python loop stores in the Voter it appends. -/
structure GenEntry where
  arrival : ℚ
  duration : ℚ
  straight : Bool
  cIdx : ℕ
deriving DecidableEq

/-- Arrival-generation loop of Precinct.simulate.  Arguments: p the
percent_straight_ticket, D the straight_ticket_duration, T the minutes
open, s the seeded stream, then remaining capacity (max_num_voters minus
voters generated so far), the running clock, and the index of the next
unconsumed stream element.  Returns the generated entries and the index of
the next unconsumed stream element.  Mirrors the while loop: the
classification draw is s i; the straight branch consumes no duration draw;
the split branch takes its duration from s (i+1); the gap draw is the last
draw of the iteration; a candidate whose clock exceeds T is discarded. -/
def genVoters (p D T : ℚ) (s : ℕ → ℚ) : ℕ → ℚ → ℕ → List GenEntry × ℕ
  | 0, _, i => ([], i)
  | rem+1, t, i =>
    if s i ≤ p then
      if t + s (i+1) > T then ([], i+2)
      else
        let r := genVoters p D T s rem (t + s (i+1)) (i+2)
        (⟨t + s (i+1), D, true, i⟩ :: r.1, r.2)
    else
      if t + s (i+2) > T then ([], i+3)
      else
        let r := genVoters p D T s rem (t + s (i+2)) (i+3)
        (⟨t + s (i+2), s (i+1), false, i⟩ :: r.1, r.2)

/-- Booth pool, mirroring the VotingBooths class: a PriorityQueue with
maxsize num_booths, modelled as a sorted list of next-free times. -/
structure VotingBooths where
  num_booths : ℕ
  booths : List ℚ

/-- Mirrors VotingBooths.put: inserts a departure time, keeping the list
sorted so that the head is the minimum (the heap order of the queue). -/
def VotingBooths.put (b : VotingBooths) (x : ℚ) : VotingBooths :=
  ⟨b.num_booths, List.orderedInsert (· ≤ ·) x b.booths⟩

/-- Mirrors VotingBooths.get: removes and returns the minimum departure
time.  The code only calls get when the pool is full, hence nonempty, so
the default value of headD is never used. -/
def VotingBooths.get (b : VotingBooths) : ℚ × VotingBooths :=
  (b.booths.headD 0, ⟨b.num_booths, b.booths.tail⟩)

/-- Mirrors VotingBooths.full, i.e. queue.Queue.full: true iff the maxsize
is positive and the current size has reached it.  A maxsize of zero means
an unbounded queue, which is never full. -/
def VotingBooths.full (b : VotingBooths) : Bool :=
  decide (0 < b.num_booths ∧ b.num_booths ≤ b.booths.length)

/-- Booth-assignment loop of Precinct.simulate: processes the candidates
in arrival order; a voter entering a non-full pool starts at its own
arrival time, otherwise at the maximum of its arrival time and the
earliest booth free-time, which is removed; either way the voter's end
time is pushed into the pool.  Returns the updated voters and the final
pool. -/
def assignAux : VotingBooths → List Voter → List Voter × VotingBooths
  | b, [] => ([], b)
  | b, v :: vs =>
    if b.full then
      let m := b.get
      let v' := v.update_startend_times (max v.arrival_time m.1)
      let r := assignAux (m.2.put (max v.arrival_time m.1 + v.voting_duration)) vs
      (v' :: r.1, r.2)
    else
      let v' := v.update_startend_times v.arrival_time
      let r := assignAux (b.put (v.arrival_time + v.voting_duration)) vs
      (v' :: r.1, r.2)

/-- Precinct record, mirroring Precinct.__init__, which stores the open
hours converted to minutes and performs no validation. -/
structure Precinct where
  name : String
  minutes_open : ℚ
  max_num_voters : ℕ
  num_booths : ℕ
  arrival_rate : ℚ
  voting_duration_rate : ℚ

/-- Mirrors the Precinct constructor: minutes_open is hours_open times 60;
every argument is accepted unchecked. -/
def Precinct.make (name : String) (hours_open : ℕ) (max_num_voters num_booths : ℕ)
    (arrival_rate voting_duration_rate : ℚ) : Precinct :=
  ⟨name, (hours_open : ℚ) * 60, max_num_voters, num_booths, arrival_rate, voting_duration_rate⟩

/-- The candidate voters generated by the arrival loop of
Precinct.simulate, with the branch instrumentation retained. -/
def Precinct.candidates (pc : Precinct) (percent_straight_ticket straight_ticket_duration : ℚ)
    (s : ℕ → ℚ) : List GenEntry :=
  (genVoters percent_straight_ticket straight_ticket_duration pc.minutes_open s
    pc.max_num_voters 0 0).1

/-- Forgets the instrumentation, giving the Voter the Python loop appends. -/
def GenEntry.toVoter (e : GenEntry) : Voter :=
  ⟨e.arrival, e.duration, none, none⟩

/-- Mirrors Precinct.simulate: generate the arrival stream, then drive the
voters through a fresh booth pool of size num_booths. -/
def Precinct.simulate (pc : Precinct) (percent_straight_ticket straight_ticket_duration : ℚ)
    (s : ℕ → ℚ) : List Voter :=
  (assignAux ⟨pc.num_booths, []⟩
    ((pc.candidates percent_straight_ticket straight_ticket_duration s).map
      GenEntry.toVoter)).1

/-- Python exceptions the statistics layer can raise.  The code raises
ZeroDivisionError when a trial has no voters and IndexError when the list
of averages is empty; emptyTrialError is the explicit error the design
document asks for, which the code never raises. -/
inductive PyError where
  | zeroDivisionError
  | indexError
  | emptyTrialError
deriving DecidableEq

/-- Precinct dictionary handed to find_avg_wait_time, with exactly the
keys that function reads. -/
structure PrecinctDict where
  name : String
  hours_open : ℕ
  num_voters : ℕ
  num_booths : ℕ
  arrival_rate : ℚ
  voting_duration_rate : ℚ
  straight_ticket_duration : ℚ

/-- Mirrors the Precinct(...) construction at the top of
find_avg_wait_time. -/
def PrecinctDict.toPrecinct (d : PrecinctDict) : Precinct :=
  Precinct.make d.name d.hours_open d.num_voters d.num_booths d.arrival_rate
    d.voting_duration_rate

/-- Per-voter waiting times of one trial: start_time minus arrival_time
for each simulated voter (start_time is always set after simulate). -/
def trialWaits (pc : Precinct) (p D : ℚ) (s : ℕ → ℚ) : List ℚ :=
  (pc.simulate p D s).map (fun v => v.start_time.getD 0 - v.arrival_time)

/-- Mean waiting time of one trial, the sum over the length, exactly the
expression sum(wait_times) / len(wait_times) of the code. -/
def trialMean (pc : Precinct) (p D : ℚ) (s : ℕ → ℚ) : ℚ :=
  (trialWaits pc p D s).sum / ((trialWaits pc p D s).length : ℚ)

/-- The trial loop of find_avg_wait_time: runs the given number of trials
with consecutive seeds and collects each mean in seed order; a trial with
zero voters makes the mean computation divide by zero, modelled as a
ZeroDivisionError raised at that trial. -/
def trialAvgs (pc : Precinct) (p D : ℚ) (rng : ℕ → ℕ → ℚ) : ℕ → ℕ → Except PyError (List ℚ)
  | _, 0 => .ok []
  | seed, n+1 =>
    if (trialWaits pc p D (rng seed)).length = 0 then .error .zeroDivisionError
    else
      match trialAvgs pc p D rng (seed+1) n with
      | .error e => .error e
      | .ok rest => .ok (trialMean pc p D (rng seed) :: rest)

/-- Mirrors find_avg_wait_time: build the Precinct from the dictionary,
run ntrials trials with seeds initial_seed, initial_seed+1, ..., sort the
per-trial means ascending and take the element at index ntrials / 2;
indexing an empty list is an IndexError. -/
def find_avg_wait_time (d : PrecinctDict) (percent_straight_ticket : ℚ) (ntrials : ℕ)
    (initial_seed : ℕ) (rng : ℕ → ℕ → ℚ) : Except PyError ℚ :=
  match trialAvgs d.toPrecinct percent_straight_ticket d.straight_ticket_duration rng
      initial_seed ntrials with
  | .error e => .error e
  | .ok avgs =>
    let sorted := avgs.insertionSort (· ≤ ·)
    if h : ntrials / 2 < sorted.length then .ok (sorted.get ⟨ntrials / 2, h⟩)
    else .error .indexError

/-- One step of the loop of find_percent_split_ticket at a given straight
count (straight tenths): if the median average wait strictly exceeds the
target, return the split fraction (10 - straight)/10 with that wait,
otherwise fall through to the given continuation. -/
def fpstStep (d : PrecinctDict) (target : ℚ) (ntrials seed : ℕ) (rng : ℕ → ℕ → ℚ)
    (straight : ℕ) (next : Except PyError (ℚ × Option ℚ)) : Except PyError (ℚ × Option ℚ) :=
  match find_avg_wait_time d ((straight : ℚ) / 10) ntrials seed rng with
  | .error e => .error e
  | .ok avg =>
    if avg > target then .ok (((10 - straight : ℕ) : ℚ) / 10, some avg)
    else next

/-- The loop of find_percent_split_ticket, descending over the straight
count from its argument down to 0; at straight count 0 the split index has
reached 10 and the loop returns (1, none) when the wait does not exceed
the target. -/
def fpstAux (d : PrecinctDict) (target : ℚ) (ntrials seed : ℕ) (rng : ℕ → ℕ → ℚ) :
    ℕ → Except PyError (ℚ × Option ℚ)
  | 0 => fpstStep d target ntrials seed rng 0 (.ok (1, none))
  | st+1 => fpstStep d target ntrials seed rng (st+1) (fpstAux d target ntrials seed rng st)

/-- Mirrors find_percent_split_ticket: sweep straight fractions 1.0, 0.9,
..., 0.0, i.e. straight counts 10 down to 0. -/
def find_percent_split_ticket (d : PrecinctDict) (target : ℚ) (ntrials seed : ℕ)
    (rng : ℕ → ℕ → ℚ) : Except PyError (ℚ × Option ℚ) :=
  fpstAux d target ntrials seed rng 10

deriving instance DecidableEq for Except

/-- Empty precinct name used by concrete instances below. -/
def pname0 : String := ""

/-- Every voter output by the assignment loop has its start time set, its
end time equal to start plus duration, and starts no earlier than it
arrived: in the non-full branch the start is the arrival itself, in the
full branch it is the maximum of the arrival and a booth free-time. -/
theorem assignAux_start (l : List Voter) : ∀ (b : VotingBooths) (v : Voter),
    v ∈ (assignAux b l).1 →
    ∃ st : ℚ, v.start_time = some st ∧ v.end_time = some (st + v.voting_duration) ∧
      v.arrival_time ≤ st := by
  induction l with
  | nil => intro b v hv; simp [assignAux] at hv
  | cons w ws ih =>
    intro b v hv
    by_cases h : b.full
    · simp only [assignAux, h, if_true, List.mem_cons] at hv
      rcases hv with hv | hv
      · subst hv
        exact ⟨max w.arrival_time (b.get).1, rfl, rfl, le_max_left _ _⟩
      · exact ih _ v hv
    · simp only [assignAux, h, if_false, Bool.false_eq_true, List.mem_cons] at hv
      rcases hv with hv | hv
      · subst hv
        exact ⟨w.arrival_time, rfl, rfl, le_refl _⟩
      · exact ih _ v hv

/-- The assignment loop only fills in start and end times: the sequence of
arrival times is unchanged. -/
theorem assignAux_map_arrival (l : List Voter) : ∀ b : VotingBooths,
    ((assignAux b l).1).map Voter.arrival_time = l.map Voter.arrival_time := by
  induction l with
  | nil => intro b; simp [assignAux]
  | cons w ws ih =>
    intro b
    by_cases h : b.full <;>
      simp [assignAux, h, Voter.update_startend_times, ih]

/-- The assignment loop returns as many voters as it was given. -/
theorem assignAux_length (l : List Voter) (b : VotingBooths) :
    ((assignAux b l).1).length = l.length := by
  have h := congrArg List.length (assignAux_map_arrival l b)
  simpa using h

/-- With a zero-size pool the full test is always false, so every voter is
assigned at its own arrival time. -/
theorem assignAux_zero (l : List Voter) : ∀ b : VotingBooths, b.num_booths = 0 →
    ∀ v ∈ (assignAux b l).1, v.start_time = some v.arrival_time := by
  induction l with
  | nil => intro b h0 v hv; simp [assignAux] at hv
  | cons w ws ih =>
    intro b h0 v hv
    have hfull : b.full = false := by
      simp [VotingBooths.full, h0]
    simp only [assignAux, hfull, if_false, Bool.false_eq_true, List.mem_cons] at hv
    rcases hv with hv | hv
    · subst hv; rfl
    · exact ih _ (by simp [VotingBooths.put, h0]) v hv

/-- Pool-size accounting for the assignment loop: starting from a pool
within capacity, a full pool is drained and refilled (size unchanged) and
a non-full pool grows by one, so the final size is the minimum of the
capacity and the total number of pushes. -/
theorem assignAux_pool_length (l : List Voter) : ∀ b : VotingBooths,
    b.booths.length ≤ b.num_booths → 0 < b.num_booths →
    ((assignAux b l).2).booths.length = min b.num_booths (b.booths.length + l.length) := by
  induction l with
  | nil => intro b hle hpos; simp [assignAux, Nat.min_eq_right hle]
  | cons w ws ih =>
    intro b hle hpos
    by_cases h : b.full
    · have hfull : b.num_booths ≤ b.booths.length := by
        have := of_decide_eq_true h
        exact this.2
      have heq : b.booths.length = b.num_booths := le_antisymm hle hfull
      have htail : b.booths.tail.length = b.num_booths - 1 := by
        rw [List.length_tail, heq]
      simp only [assignAux, h, if_true]
      have hput :
          (((b.get).2).put (max w.arrival_time (b.get).1 + w.voting_duration)).booths.length
            = b.num_booths := by
        simp [VotingBooths.put, VotingBooths.get, List.orderedInsert_length, htail]
        omega
      have hnb :
          (((b.get).2).put (max w.arrival_time (b.get).1 + w.voting_duration)).num_booths
            = b.num_booths := by
        simp [VotingBooths.put, VotingBooths.get]
      rw [ih _ (by rw [hput, hnb]) (by rw [hnb]; exact hpos)]
      rw [hput, hnb, heq]
      simp only [List.length_cons]
      omega
    · have hlt : b.booths.length < b.num_booths := by
        by_contra hc
        exact h (decide_eq_true ⟨hpos, le_of_not_lt hc⟩)
      simp only [assignAux, h, if_false, Bool.false_eq_true]
      have hput : ((b.put (w.arrival_time + w.voting_duration))).booths.length
          = b.booths.length + 1 := by
        simp [VotingBooths.put, List.orderedInsert_length]
      have hnb : ((b.put (w.arrival_time + w.voting_duration))).num_booths = b.num_booths := by
        simp [VotingBooths.put]
      rw [ih _ (by rw [hput, hnb]; omega) (by rw [hnb]; exact hpos)]
      rw [hput, hnb]
      simp only [List.length_cons]
      omega

/-- Claim C7: every voter in the sequence returned by simulate has
start_time at least arrival_time, and end_time equal to start_time plus
voting_duration. -/
theorem claim7_theorem (pc : Precinct) (percent_straight_ticket straight_ticket_duration : ℚ)
    (s : ℕ → ℚ) (v : Voter)
    (hv : v ∈ pc.simulate percent_straight_ticket straight_ticket_duration s) :
    ∃ st : ℚ, v.start_time = some st ∧ v.end_time = some (st + v.voting_duration) ∧
      v.arrival_time ≤ st :=
  assignAux_start _ _ v hv

/-- Claim C7 witness at a concrete run: one booth, one voter arriving at
time 1 with duration 1, started at its arrival. -/
theorem claim7_witness :
    ∃ st : ℚ, (⟨1, 1, some 1, some 2⟩ : Voter).start_time = some st ∧
      (⟨1, 1, some 1, some 2⟩ : Voter).end_time =
        some (st + (⟨1, 1, some 1, some 2⟩ : Voter).voting_duration) ∧
      (⟨1, 1, some 1, some 2⟩ : Voter).arrival_time ≤ st :=
  claim7_theorem (Precinct.make pname0 1 1 1 1 1) 0 5 (fun _ => 1) ⟨1, 1, some 1, some 2⟩
    (by norm_num [Precinct.simulate, Precinct.candidates, Precinct.make, genVoters,
      GenEntry.toVoter, assignAux, VotingBooths.full, VotingBooths.put,
      Voter.update_startend_times, List.orderedInsert])

/-- Claim C9: throughout the assignment phase of simulate with at least
one booth, after k voters the pool holds exactly min(num_booths, k)
free-times, in particular never more than num_booths. -/
theorem claim9_theorem (pc : Precinct) (percent_straight_ticket straight_ticket_duration : ℚ)
    (s : ℕ → ℚ) (k : ℕ) (h1 : 1 ≤ pc.num_booths)
    (hk : k ≤ (((pc.candidates percent_straight_ticket straight_ticket_duration s).map
      GenEntry.toVoter)).length) :
    ((assignAux ⟨pc.num_booths, []⟩
        (((pc.candidates percent_straight_ticket straight_ticket_duration s).map
          GenEntry.toVoter).take k)).2).booths.length = min pc.num_booths k ∧
      min pc.num_booths k ≤ pc.num_booths := by
  have hpos : 0 < pc.num_booths := h1
  have h := assignAux_pool_length
    (((pc.candidates percent_straight_ticket straight_ticket_duration s).map
      GenEntry.toVoter).take k) ⟨pc.num_booths, []⟩ (by simp) hpos
  refine ⟨?_, Nat.min_le_left _ _⟩
  rw [h]
  simp only [List.length_take, List.length_map, List.length_nil, Nat.zero_add]
  simp only [List.length_map] at hk
  omega

/-- Claim C9 witness: one booth, one generated voter taken, pool size
exactly min 1 1 = 1. -/
theorem claim9_witness :
    ((assignAux ⟨(Precinct.make pname0 1 1 1 1 1).num_booths, []⟩
        ((((Precinct.make pname0 1 1 1 1 1).candidates 0 5 (fun _ => 1)).map
          GenEntry.toVoter).take 1)).2).booths.length =
        min (Precinct.make pname0 1 1 1 1 1).num_booths 1 ∧
      min (Precinct.make pname0 1 1 1 1 1).num_booths 1 ≤
        (Precinct.make pname0 1 1 1 1 1).num_booths :=
  claim9_theorem (Precinct.make pname0 1 1 1 1 1) 0 5 (fun _ => 1) 1 (by norm_num [Precinct.make])
    (by norm_num [Precinct.candidates, Precinct.make, genVoters, GenEntry.toVoter])

/-- Claim C10: with num_booths = 0 the pool is an unbounded queue that
never reports full, simulate does not fail, and every voter starts at its
own arrival time (zero waiting time). -/
theorem claim10_theorem (pc : Precinct) (percent_straight_ticket straight_ticket_duration : ℚ)
    (s : ℕ → ℚ) (pool : List ℚ) (v : Voter) (h0 : pc.num_booths = 0) :
    VotingBooths.full ⟨pc.num_booths, pool⟩ = false ∧
      (v ∈ pc.simulate percent_straight_ticket straight_ticket_duration s →
        v.start_time = some v.arrival_time) := by
  constructor
  · simp [VotingBooths.full, h0]
  · intro hv
    exact assignAux_zero _ _ h0 v hv

/-- Claim C10 witness: a zero-booth precinct with one simulated voter,
assigned at its own arrival time, and a pool that is not full even with an
entry in it. -/
theorem claim10_witness :
    VotingBooths.full ⟨(Precinct.make pname0 1 1 0 1 1).num_booths, [3]⟩ = false ∧
      ((⟨1, 1, some 1, some 2⟩ : Voter) ∈
          (Precinct.make pname0 1 1 0 1 1).simulate 0 5 (fun _ => 1) →
        (⟨1, 1, some 1, some 2⟩ : Voter).start_time =
          some (⟨1, 1, some 1, some 2⟩ : Voter).arrival_time) :=
  claim10_theorem (Precinct.make pname0 1 1 0 1 1) 0 5 (fun _ => 1) [3] ⟨1, 1, some 1, some 2⟩
    (by norm_num [Precinct.make])

/-- Bounds for the arrival-generation loop under non-negative draws: every
generated arrival lies between the running clock at entry and the closing
time, the arrival sequence is non-decreasing, and at most the remaining
capacity is generated.  A candidate whose clock passes T ends the list
without being recorded. -/
theorem genVoters_bounds (p D T : ℚ) (s : ℕ → ℚ) (hs : ∀ n, 0 ≤ s n) :
    ∀ (rem : ℕ) (t : ℚ) (i : ℕ),
      (∀ e ∈ (genVoters p D T s rem t i).1, t ≤ e.arrival ∧ e.arrival ≤ T) ∧
        List.Chain' (· ≤ ·) (((genVoters p D T s rem t i).1).map GenEntry.arrival) ∧
        (genVoters p D T s rem t i).1.length ≤ rem := by
  intro rem
  induction rem with
  | zero => intro t i; simp [genVoters]
  | succ rem ih =>
    intro t i
    by_cases hc : s i ≤ p
    · by_cases hb : t + s (i+1) > T
      · simp [genVoters, hc, hb]
      · have ht' : t ≤ t + s (i+1) := by
          have := hs (i+1); linarith
        have hT : t + s (i+1) ≤ T := le_of_not_lt hb
        obtain ⟨ihb, ihc, ihl⟩ := ih (t + s (i+1)) (i+2)
        simp only [genVoters, if_pos hc, if_neg hb]
        refine ⟨?_, ?_, ?_⟩
        · intro e he
          rcases List.mem_cons.mp he with he | he
          · subst he; exact ⟨ht', hT⟩
          · exact ⟨le_trans ht' (ihb e he).1, (ihb e he).2⟩
        · rw [List.map_cons, List.chain'_cons']
          refine ⟨?_, ihc⟩
          intro y hy
          rw [List.head?_map] at hy
          rcases Option.map_eq_some'.mp (Option.mem_def.mp hy) with ⟨a, ha, hya⟩
          subst hya
          exact (ihb a (List.mem_of_mem_head? (Option.mem_def.mpr ha))).1
        · simpa using Nat.succ_le_succ ihl
    · by_cases hb : t + s (i+2) > T
      · simp [genVoters, hc, hb]
      · have ht' : t ≤ t + s (i+2) := by
          have := hs (i+2); linarith
        have hT : t + s (i+2) ≤ T := le_of_not_lt hb
        obtain ⟨ihb, ihc, ihl⟩ := ih (t + s (i+2)) (i+3)
        simp only [genVoters, if_neg hc, if_neg hb]
        refine ⟨?_, ?_, ?_⟩
        · intro e he
          rcases List.mem_cons.mp he with he | he
          · subst he; exact ⟨ht', hT⟩
          · exact ⟨le_trans ht' (ihb e he).1, (ihb e he).2⟩
        · rw [List.map_cons, List.chain'_cons']
          refine ⟨?_, ihc⟩
          intro y hy
          rw [List.head?_map] at hy
          rcases Option.map_eq_some'.mp (Option.mem_def.mp hy) with ⟨a, ha, hya⟩
          subst hya
          exact (ihb a (List.mem_of_mem_head? (Option.mem_def.mpr ha))).1
        · simpa using Nat.succ_le_succ ihl

/-- Claim C8: for every configuration and stream of non-negative variates
(uniform draws and exponential variates are non-negative), the arrival
times returned by simulate are non-decreasing, each lies in
[0, minutes_open], the voter count never exceeds max_num_voters, and the
candidate whose accumulated clock exceeds minutes_open is never part of
the output. -/
theorem claim8_theorem (pc : Precinct) (percent_straight_ticket straight_ticket_duration : ℚ)
    (s : ℕ → ℚ) (v : Voter) (hs : ∀ n, 0 ≤ s n) :
    List.Chain' (· ≤ ·)
        ((pc.simulate percent_straight_ticket straight_ticket_duration s).map
          Voter.arrival_time) ∧
      (v ∈ pc.simulate percent_straight_ticket straight_ticket_duration s →
        0 ≤ v.arrival_time ∧ v.arrival_time ≤ pc.minutes_open) ∧
      (pc.simulate percent_straight_ticket straight_ticket_duration s).length ≤
        pc.max_num_voters := by
  obtain ⟨hb, hc, hl⟩ := genVoters_bounds percent_straight_ticket straight_ticket_duration
    pc.minutes_open s hs pc.max_num_voters 0 0
  have harr : ((pc.simulate percent_straight_ticket straight_ticket_duration s).map
      Voter.arrival_time) =
      ((pc.candidates percent_straight_ticket straight_ticket_duration s).map
        GenEntry.arrival) := by
    rw [Precinct.simulate, assignAux_map_arrival, List.map_map]
    rfl
  refine ⟨?_, ?_, ?_⟩
  · rw [harr]
    exact hc
  · intro hv
    have : v.arrival_time ∈ ((pc.simulate percent_straight_ticket
        straight_ticket_duration s).map Voter.arrival_time) :=
      List.mem_map_of_mem _ hv
    rw [harr] at this
    rcases List.mem_map.mp this with ⟨e, he, hea⟩
    have hbe := hb e he
    rw [← hea]
    exact ⟨hbe.1, hbe.2⟩
  · have hlen : (pc.simulate percent_straight_ticket straight_ticket_duration s).length =
        (pc.candidates percent_straight_ticket straight_ticket_duration s).length := by
      rw [Precinct.simulate, assignAux_length, List.length_map]
    rw [hlen]
    exact hl

/-- Claim C8 witness: a two-voter run with unit gaps, arrivals 1 then 2,
within the 60 open minutes and within the capacity of 2. -/
theorem claim8_witness :
    List.Chain' (· ≤ ·)
        (((Precinct.make pname0 1 2 1 1 1).simulate 0 5 (fun _ => 1)).map
          Voter.arrival_time) ∧
      ((⟨1, 1, some 1, some 2⟩ : Voter) ∈
          (Precinct.make pname0 1 2 1 1 1).simulate 0 5 (fun _ => 1) →
        0 ≤ (⟨1, 1, some 1, some 2⟩ : Voter).arrival_time ∧
          (⟨1, 1, some 1, some 2⟩ : Voter).arrival_time ≤
            (Precinct.make pname0 1 2 1 1 1).minutes_open) ∧
      ((Precinct.make pname0 1 2 1 1 1).simulate 0 5 (fun _ => 1)).length ≤
        (Precinct.make pname0 1 2 1 1 1).max_num_voters :=
  claim8_theorem (Precinct.make pname0 1 2 1 1 1) 0 5 (fun _ => 1) ⟨1, 1, some 1, some 2⟩
    (fun n => by norm_num)

/-- With percent_straight_ticket = 1 and classification draws below 1
(uniform draws lie in [0,1)), every generated voter takes the straight
branch; the classification indices are the even numbers along the run. -/
theorem genVoters_all_straight (D T : ℚ) (s : ℕ → ℚ) (hs : ∀ k, s (2*k) < 1) :
    ∀ (rem : ℕ) (t : ℚ) (k : ℕ), ∀ e ∈ (genVoters 1 D T s rem t (2*k)).1,
      e.straight = true := by
  intro rem
  induction rem with
  | zero => intro t k e he; simp [genVoters] at he
  | succ rem ih =>
    intro t k e he
    have hc : s (2*k) ≤ 1 := le_of_lt (hs k)
    by_cases hb : t + s (2*k+1) > T
    · simp [genVoters, hc, hb] at he
    · simp only [genVoters, if_pos hc, if_neg hb] at he
      rcases List.mem_cons.mp he with he | he
      · subst he; rfl
      · have h2 : 2*k+2 = 2*(k+1) := by omega
        rw [h2] at he
        exact ih (t + s (2*k+1)) (k+1) e he

/-- With percent_straight_ticket = 0 and strictly positive classification
draws, every generated voter takes the split branch; the classification
indices are the multiples of three along the run. -/
theorem genVoters_all_split (D T : ℚ) (s : ℕ → ℚ) (hs : ∀ k, 0 < s (3*k)) :
    ∀ (rem : ℕ) (t : ℚ) (k : ℕ), ∀ e ∈ (genVoters 0 D T s rem t (3*k)).1,
      e.straight = false := by
  intro rem
  induction rem with
  | zero => intro t k e he; simp [genVoters] at he
  | succ rem ih =>
    intro t k e he
    have hc : ¬ s (3*k) ≤ 0 := not_le.mpr (hs k)
    by_cases hb : t + s (3*k+2) > T
    · simp [genVoters, hc, hb] at he
    · simp only [genVoters, if_neg hc, if_neg hb] at he
      rcases List.mem_cons.mp he with he | he
      · subst he; rfl
      · have h3 : 3*k+3 = 3*(k+1) := by omega
        rw [h3] at he
        exact ih (t + s (3*k+2)) (k+1) e he

/-- Claim C4 (amended): with percent_straight_ticket = 1 every voter is
routed to the straight branch whenever the classification draws are below
1, as every uniform draw is; with percent_straight_ticket = 0 a voter is
routed to the split branch whenever its classification draw is strictly
positive, but a draw of exactly 0 — a possible uniform value — is routed
to the straight branch, so the claim for percent 0 holds only for nonzero
draws. -/
theorem claim4_theorem (pc : Precinct) (D1 D2 : ℚ) (s1 s2 : ℕ → ℚ) (e1 e2 : GenEntry)
    (hs1 : ∀ k, s1 (2*k) < 1) (hs2 : ∀ k, 0 < s2 (3*k))
    (he1 : e1 ∈ pc.candidates 1 D1 s1) (he2 : e2 ∈ pc.candidates 0 D2 s2) :
    e1.straight = true ∧ e2.straight = false := by
  constructor
  · exact genVoters_all_straight D1 pc.minutes_open s1 hs1 pc.max_num_voters 0 0 e1 he1
  · exact genVoters_all_split D2 pc.minutes_open s2 hs2 pc.max_num_voters 0 0 e2 he2

/-- Claim C4 counterexample: with percent_straight_ticket = 0 a
classification draw of exactly 0 — a value the uniform generator can
return — satisfies the test draw <= 0 and is routed to the straight
branch, so not every voter goes to the exponential branch. -/
theorem claim4_counterexample :
    (0:ℚ) ≤ (fun n => if n = 0 then (0:ℚ) else 1) 0 ∧
      (fun n => if n = 0 then (0:ℚ) else 1) 0 < 1 ∧
      ((Precinct.make pname0 1 1 1 1 1).candidates 0 99
          (fun n => if n = 0 then (0:ℚ) else 1)).map GenEntry.straight = [true] := by
  refine ⟨by norm_num, by norm_num, ?_⟩
  norm_num [Precinct.candidates, Precinct.make, genVoters]

/-- Claim C4 witness: concrete runs for both mixture extremes. -/
theorem claim4_witness :
    (⟨0, 7, true, 0⟩ : GenEntry).straight = true ∧
      (⟨1, 1, false, 0⟩ : GenEntry).straight = false :=
  claim4_theorem (Precinct.make pname0 1 1 1 1 1) 7 1 (fun _ => 0) (fun _ => 1)
    ⟨0, 7, true, 0⟩ ⟨1, 1, false, 0⟩ (fun k => by norm_num) (fun k => by norm_num)
    (by norm_num [Precinct.candidates, Precinct.make, genVoters])
    (by norm_num [Precinct.candidates, Precinct.make, genVoters])

/-- Total stream elements consumed by a list of recorded voters, two per
straight-ticket voter (classification and gap) and three per split-ticket
voter (classification, duration and gap). -/
def drawsConsumed (l : List GenEntry) : ℕ :=
  2 * l.countP (fun e => e.straight) + 3 * l.countP (fun e => !e.straight)

/-- Claim C2 (amended): a straight-ticket voter consumes exactly two draws
(classification then gap) and a split-ticket voter exactly three
(classification, duration, gap).  When generation stops by reaching the
capacity, the final stream index equals the initial index plus the draws
consumed by the recorded voters; when it stops early, the discarded
candidate consumed two or three further draws depending on its branch. -/
theorem claim2_theorem (p D T : ℚ) (s : ℕ → ℚ) :
    ∀ (rem : ℕ) (t : ℚ) (i : ℕ),
      ((genVoters p D T s rem t i).1.length = rem →
        (genVoters p D T s rem t i).2 = i + drawsConsumed (genVoters p D T s rem t i).1) ∧
      ((genVoters p D T s rem t i).1.length < rem →
        (genVoters p D T s rem t i).2 =
            i + drawsConsumed (genVoters p D T s rem t i).1 + 2 ∨
          (genVoters p D T s rem t i).2 =
            i + drawsConsumed (genVoters p D T s rem t i).1 + 3) := by
  intro rem
  induction rem with
  | zero =>
    intro t i
    refine ⟨fun _ => ?_, fun h => absurd h (by simp)⟩
    simp [genVoters, drawsConsumed]
  | succ rem ih =>
    intro t i
    by_cases hc : s i ≤ p
    · by_cases hb : t + s (i+1) > T
      · simp only [genVoters, if_pos hc, if_pos hb]
        refine ⟨fun h => absurd h (by simp), fun _ => ?_⟩
        left
        simp [drawsConsumed]
      · simp only [genVoters, if_pos hc, if_neg hb]
        obtain ⟨ih1, ih2⟩ := ih (t + s (i+1)) (i+2)
        have hdc : drawsConsumed (⟨t + s (i+1), D, true, i⟩ ::
            (genVoters p D T s rem (t + s (i+1)) (i+2)).1) =
            drawsConsumed (genVoters p D T s rem (t + s (i+1)) (i+2)).1 + 2 := by
          simp [drawsConsumed, List.countP_cons]
          omega
        constructor
        · intro h
          simp only [List.length_cons] at h
          have := ih1 (by omega)
          rw [hdc]
          omega
        · intro h
          simp only [List.length_cons] at h
          rcases ih2 (by omega) with h2 | h2
          · left; rw [hdc]; omega
          · right; rw [hdc]; omega
    · by_cases hb : t + s (i+2) > T
      · simp only [genVoters, if_neg hc, if_pos hb]
        refine ⟨fun h => absurd h (by simp), fun _ => ?_⟩
        right
        simp [drawsConsumed]
      · simp only [genVoters, if_neg hc, if_neg hb]
        obtain ⟨ih1, ih2⟩ := ih (t + s (i+2)) (i+3)
        have hdc : drawsConsumed (⟨t + s (i+2), s (i+1), false, i⟩ ::
            (genVoters p D T s rem (t + s (i+2)) (i+3)).1) =
            drawsConsumed (genVoters p D T s rem (t + s (i+2)) (i+3)).1 + 3 := by
          simp [drawsConsumed, List.countP_cons]
          omega
        constructor
        · intro h
          simp only [List.length_cons] at h
          have := ih1 (by omega)
          rw [hdc]
          omega
        · intro h
          simp only [List.length_cons] at h
          rcases ih2 (by omega) with h2 | h2
          · left; rw [hdc]; omega
          · right; rw [hdc]; omega

/-- Claim C2 counterexample: a voter classified straight-ticket consumes
two draws, not three.  With percent_straight_ticket = 1 and one voter
generated, the final stream index is 2, while the claim of three draws per
voter would give 3. -/
theorem claim2_counterexample :
    (genVoters 1 5 60 (fun _ => 0) 1 0 0).1.length = 1 ∧
      (genVoters 1 5 60 (fun _ => 0) 1 0 0).2 = 2 := by
  norm_num [genVoters]

/-- Claim C2 witness: a two-voter straight-ticket run consuming exactly
two draws per recorded voter. -/
theorem claim2_witness :
    (genVoters 1 5 60 (fun _ => 0) 2 0 0).2 =
      0 + drawsConsumed (genVoters 1 5 60 (fun _ => 0) 2 0 0).1 :=
  (claim2_theorem 1 5 60 (fun _ => 0) 2 0 0).1 (by norm_num [genVoters])

/-- If some trial in range yields zero voters, the trial loop stops with a
ZeroDivisionError: the mean of an empty list of waits divides by zero. -/
theorem trialAvgs_error (pc : Precinct) (p D : ℚ) (rng : ℕ → ℕ → ℚ) :
    ∀ (n seed : ℕ), (∃ i, i < n ∧ trialWaits pc p D (rng (seed + i)) = []) →
    trialAvgs pc p D rng seed n = .error .zeroDivisionError := by
  intro n
  induction n with
  | zero =>
    intro seed h
    rcases h with ⟨i, hi, _⟩
    omega
  | succ n ih =>
    intro seed h
    by_cases h0 : (trialWaits pc p D (rng seed)).length = 0
    · simp [trialAvgs, h0]
    · rcases h with ⟨i, hi, hempty⟩
      have hi0 : i ≠ 0 := by
        intro hz
        subst hz
        rw [Nat.add_zero] at hempty
        rw [hempty] at h0
        simp at h0
      obtain ⟨j, rfl⟩ := Nat.exists_eq_succ_of_ne_zero hi0
      have hrw : seed + (j+1) = (seed+1) + j := by omega
      rw [hrw] at hempty
      have hrec := ih (seed+1) ⟨j, by omega, hempty⟩
      simp [trialAvgs, h0, hrec]

/-- Claim C3 (amended): when some trial among the ntrials runs produces
zero voters, find_avg_wait_time raises an uncontrolled ZeroDivisionError
(the raw division by zero of the mean computation); it does not surface an
explicit empty-trial error. -/
theorem claim3_theorem (d : PrecinctDict) (percent_straight_ticket : ℚ)
    (ntrials initial_seed : ℕ) (rng : ℕ → ℕ → ℚ)
    (h : ∃ i, i < ntrials ∧ trialWaits d.toPrecinct percent_straight_ticket
      d.straight_ticket_duration (rng (initial_seed + i)) = []) :
    find_avg_wait_time d percent_straight_ticket ntrials initial_seed rng =
      .error .zeroDivisionError := by
  have herr := trialAvgs_error d.toPrecinct percent_straight_ticket
    d.straight_ticket_duration rng ntrials initial_seed h
  simp [find_avg_wait_time, herr]

/-- Claim C3 counterexample: with a precinct whose maximum voter count is
zero every trial is empty, and find_avg_wait_time evaluates to the raw
ZeroDivisionError, not to the explicit empty-trial error the claim
requires. -/
theorem claim3_counterexample :
    find_avg_wait_time ⟨pname0, 1, 0, 1, 1, 1, 4⟩ 0 1 0 (fun _ _ => 1) =
        .error .zeroDivisionError ∧
      find_avg_wait_time ⟨pname0, 1, 0, 1, 1, 1, 4⟩ 0 1 0 (fun _ _ => 1) ≠
        .error .emptyTrialError := by
  have h : find_avg_wait_time ⟨pname0, 1, 0, 1, 1, 1, 4⟩ 0 1 0 (fun _ _ => 1) =
      .error .zeroDivisionError := by
    norm_num [find_avg_wait_time, trialAvgs, trialWaits, Precinct.simulate,
      Precinct.candidates, PrecinctDict.toPrecinct, Precinct.make, genVoters,
      GenEntry.toVoter, assignAux]
  refine ⟨h, ?_⟩
  rw [h]
  decide

/-- Claim C3 witness: a two-trial run over the empty precinct, erroring
with the division by zero. -/
theorem claim3_witness :
    find_avg_wait_time ⟨pname0, 1, 0, 1, 1, 1, 4⟩ 0 2 5 (fun _ _ => 1) =
      .error .zeroDivisionError :=
  claim3_theorem ⟨pname0, 1, 0, 1, 1, 1, 4⟩ 0 2 5 (fun _ _ => 1)
    ⟨0, by omega, by norm_num [trialWaits, Precinct.simulate, Precinct.candidates,
      PrecinctDict.toPrecinct, Precinct.make, genVoters, GenEntry.toVoter, assignAux]⟩

/-- When every trial in range yields at least one voter, the trial loop
returns the per-trial means, in seed order. -/
theorem trialAvgs_ok (pc : Precinct) (p D : ℚ) (rng : ℕ → ℕ → ℚ) :
    ∀ (n seed : ℕ), (∀ i, i < n → trialWaits pc p D (rng (seed + i)) ≠ []) →
    trialAvgs pc p D rng seed n =
      .ok ((List.range n).map fun i => trialMean pc p D (rng (seed + i))) := by
  intro n
  induction n with
  | zero => intro seed _; simp [trialAvgs]
  | succ n ih =>
    intro seed h
    have h0 : ¬ (trialWaits pc p D (rng seed)).length = 0 := by
      have hne := h 0 (by omega)
      rw [Nat.add_zero] at hne
      simpa [List.length_eq_zero] using hne
    have hrec := ih (seed+1) (fun i hi => by
      have hne := h (i+1) (by omega)
      have hrw : seed + (i+1) = (seed+1) + i := by omega
      rwa [hrw] at hne)
    simp only [trialAvgs, if_neg h0, hrec]
    have htail : List.map (fun i => trialMean pc p D (rng (seed + 1 + i))) (List.range n) =
        List.map ((fun i => trialMean pc p D (rng (seed + i))) ∘ Nat.succ) (List.range n) := by
      apply List.map_congr_left
      intro a ha
      have hswap : seed + 1 + a = seed + (a + 1) := by omega
      simp [Function.comp, hswap]
    simp only [List.range_succ_eq_map, List.map_cons, List.map_map, Nat.add_zero]
    rw [htail]

/-- Claim C6: with ntrials at least 1 and every trial non-empty,
find_avg_wait_time runs seeds initial_seed, initial_seed+1, ...,
initial_seed+ntrials-1, takes each trial's mean of start minus arrival,
sorts the means and returns the element at index ntrials / 2. -/
theorem claim6_theorem (d : PrecinctDict) (percent_straight_ticket : ℚ)
    (ntrials initial_seed : ℕ) (rng : ℕ → ℕ → ℚ) (h1 : 1 ≤ ntrials)
    (h : ∀ i, i < ntrials → trialWaits d.toPrecinct percent_straight_ticket
      d.straight_ticket_duration (rng (initial_seed + i)) ≠ []) :
    find_avg_wait_time d percent_straight_ticket ntrials initial_seed rng =
      .ok ((((List.range ntrials).map fun i =>
          trialMean d.toPrecinct percent_straight_ticket d.straight_ticket_duration
            (rng (initial_seed + i))).insertionSort (· ≤ ·)).getD (ntrials / 2) 0) := by
  have hok := trialAvgs_ok d.toPrecinct percent_straight_ticket
    d.straight_ticket_duration rng ntrials initial_seed h
  have hlen : ((((List.range ntrials).map fun i =>
      trialMean d.toPrecinct percent_straight_ticket d.straight_ticket_duration
        (rng (initial_seed + i))).insertionSort (· ≤ ·))).length = ntrials := by
    rw [List.length_insertionSort, List.length_map, List.length_range]
  have hidx : ntrials / 2 < ntrials := Nat.div_lt_self (by omega) (by omega)
  have hcond : ntrials / 2 < ((((List.range ntrials).map fun i =>
      trialMean d.toPrecinct percent_straight_ticket d.straight_ticket_duration
        (rng (initial_seed + i))).insertionSort (· ≤ ·))).length := by
    rw [hlen]; exact hidx
  simp only [find_avg_wait_time, hok]
  rw [dif_pos hcond]
  rw [List.getD_eq_get _ _ hcond]

/-- Concrete five-trial configuration whose per-trial averages are
1, 3, 2, 5 and 4. -/
def dC6 : PrecinctDict := ⟨pname0, 1, 2, 1, 1, 1, 12⟩

/-- Seeded generator for the five-trial run: for seeds 7 to 11 the second
gap draw is 10, 6, 8, 2 and 4, giving waits 2, 6, 4, 10 and 8 for the
second voter and hence the averages 1, 3, 2, 5, 4. -/
def rngC6 : ℕ → ℕ → ℚ := fun seed n =>
  if n = 3 then
    (if seed = 7 then 10 else if seed = 8 then 6 else if seed = 9 then 8
      else if seed = 10 then 2 else 4)
  else if n = 1 then 1 else 0

/-- Claim C6 witness: per-trial averages 1, 3, 2, 5, 4 with ntrials = 5
and initial seed 7 give the sorted middle element 3. -/
theorem claim6_witness : find_avg_wait_time dC6 1 5 7 rngC6 = .ok 3 := by
  have h := claim6_theorem dC6 1 5 7 rngC6 (by omega) (by
    intro i hi
    interval_cases i <;>
      (norm_num [trialWaits, Precinct.simulate, Precinct.candidates, PrecinctDict.toPrecinct,
        Precinct.make, genVoters, GenEntry.toVoter, assignAux, VotingBooths.full,
        VotingBooths.get, VotingBooths.put, Voter.update_startend_times, List.orderedInsert,
        max_def, dC6, rngC6]
       exact List.cons_ne_nil _ _))
  rw [h]
  norm_num [trialMean, trialWaits, Precinct.simulate, Precinct.candidates,
    PrecinctDict.toPrecinct, Precinct.make, genVoters, GenEntry.toVoter, assignAux,
    VotingBooths.full, VotingBooths.get, VotingBooths.put, Voter.update_startend_times,
    List.orderedInsert, List.insertionSort, List.range_succ, List.getD, max_def, dC6, rngC6]

/-- The sweep loop returns (1, none) when no straight fraction from its
current position down to 0 exceeds the target, and returns the split
fraction and wait of the first strict exceedance otherwise. -/
theorem fpstAux_spec (d : PrecinctDict) (target : ℚ) (ntrials seed : ℕ)
    (rng : ℕ → ℕ → ℚ) (w : ℕ → ℚ) :
    ∀ st : ℕ, st ≤ 10 →
      (∀ k, k ≤ st → find_avg_wait_time d ((k : ℚ) / 10) ntrials seed rng = .ok (w k)) →
      ((∀ k, k ≤ st → w k ≤ target) →
        fpstAux d target ntrials seed rng st = .ok (1, none)) ∧
      (∀ K, K ≤ st → target < w K → (∀ j, K < j → j ≤ st → w j ≤ target) →
        fpstAux d target ntrials seed rng st = .ok (1 - (K : ℚ) / 10, some (w K))) := by
  intro st
  induction st with
  | zero =>
    intro _ h
    have h0 := h 0 (le_refl 0)
    constructor
    · intro hle
      have hw0 := hle 0 (le_refl 0)
      simp only [fpstAux, fpstStep, h0]
      rw [if_neg (not_lt.mpr hw0)]
    · intro K hK hgt _
      interval_cases K
      simp only [fpstAux, fpstStep, h0]
      rw [if_pos hgt]
      norm_num
  | succ st ih =>
    intro hst h
    have hs1 := h (st+1) (le_refl _)
    have hih := ih (by omega) (fun k hk => h k (by omega))
    constructor
    · intro hle
      have hlast := hle (st+1) (le_refl _)
      simp only [fpstAux, fpstStep, hs1]
      rw [if_neg (not_lt.mpr hlast)]
      exact hih.1 (fun k hk => hle k (by omega))
    · intro K hK hgt hmax
      rcases Nat.lt_or_ge K (st+1) with hKlt | hKge
      · have hlast : w (st+1) ≤ target := hmax (st+1) (by omega) (le_refl _)
        simp only [fpstAux, fpstStep, hs1]
        rw [if_neg (not_lt.mpr hlast)]
        exact hih.2 K (by omega) hgt (fun j hj hj2 => hmax j hj (by omega))
      · have hKeq : K = st + 1 := by omega
        subst hKeq
        simp only [fpstAux, fpstStep, hs1]
        rw [if_pos hgt]
        have harith : ((10 - (st+1) : ℕ) : ℚ) / 10 = 1 - ((st+1 : ℕ) : ℚ) / 10 := by
          rw [Nat.cast_sub hst]
          push_cast
          ring
        rw [harith]

/-- Claim C5: find_percent_split_ticket sweeps straight fractions 1.0,
0.9, ..., 0.0 in that order; at the first fraction whose median average
wait strictly exceeds target_wait_time it returns the split fraction
1 minus the straight fraction with that wait, and if no fraction strictly
exceeds the target it returns (1, none). -/
theorem claim5_theorem (d : PrecinctDict) (target : ℚ) (ntrials seed : ℕ)
    (rng : ℕ → ℕ → ℚ) (w : ℕ → ℚ)
    (h : ∀ k : ℕ, k ≤ 10 → find_avg_wait_time d ((k : ℚ) / 10) ntrials seed rng = .ok (w k)) :
    ((∀ k : ℕ, k ≤ 10 → w k ≤ target) →
      find_percent_split_ticket d target ntrials seed rng = .ok (1, none)) ∧
    (∀ K : ℕ, K ≤ 10 → target < w K → (∀ j : ℕ, K < j → j ≤ 10 → w j ≤ target) →
      find_percent_split_ticket d target ntrials seed rng =
        .ok (1 - (K : ℚ) / 10, some (w K))) := by
  have hs := fpstAux_spec d target ntrials seed rng w 10 (le_refl _) h
  exact hs

/-- One-voter precinct for the sweep witness: with a single voter per
trial the wait is always zero. -/
def dW5 : PrecinctDict := ⟨pname0, 1, 1, 1, 1, 1, 4⟩

/-- Claim C5 witness: every sweep point has median wait 0, which never
strictly exceeds the target 5, so the sweep returns (1, none). -/
theorem claim5_witness :
    find_percent_split_ticket dW5 5 1 0 (fun _ _ => 1) = .ok (1, none) :=
  (claim5_theorem dW5 5 1 0 (fun _ _ => 1) (fun _ => 0)
      (by
        intro k hk
        interval_cases k <;>
          norm_num [find_avg_wait_time, trialAvgs, trialMean, trialWaits,
            Precinct.simulate, Precinct.candidates, PrecinctDict.toPrecinct, Precinct.make,
            genVoters, GenEntry.toVoter, assignAux, VotingBooths.full, VotingBooths.put,
            Voter.update_startend_times, List.orderedInsert, List.insertionSort, dW5])).1
    (fun k hk => by norm_num)

/-- Claim C1 counterexample: the code performs no configuration
validation.  A configuration with zero booths is accepted by the Precinct
constructor and simulate returns a non-empty result instead of failing. -/
theorem claim1_counterexample :
    (Precinct.make pname0 1 1 0 1 1).num_booths = 0 ∧
      (Precinct.make pname0 1 1 0 1 1).simulate 0 5 (fun _ => 1) =
        [⟨1, 1, some 1, some 2⟩] := by
  constructor
  · rfl
  · norm_num [Precinct.simulate, Precinct.candidates, Precinct.make, genVoters,
      GenEntry.toVoter, assignAux, VotingBooths.full, VotingBooths.put,
      Voter.update_startend_times, List.orderedInsert]

/-- Claim C1 amended: no configuration is rejected.  In particular the
zero-booth precinct is constructed with exactly the given fields and for
every stream simulate produces a (degenerate) result in which every voter
is served immediately at its arrival time. -/
theorem claim1_theorem (s : ℕ → ℚ) (v : Voter)
    (hv : v ∈ (Precinct.make pname0 1 1 0 1 1).simulate 0 5 s) :
    (Precinct.make pname0 1 1 0 1 1).num_booths = 0 ∧
      v.start_time = some v.arrival_time :=
  ⟨rfl, assignAux_zero _ _ rfl v hv⟩

/-- Claim C1 witness: the concrete voter produced by the zero-booth run. -/
theorem claim1_witness :
    (Precinct.make pname0 1 1 0 1 1).num_booths = 0 ∧
      (⟨1, 1, some 1, some 2⟩ : Voter).start_time =
        some (⟨1, 1, some 1, some 2⟩ : Voter).arrival_time :=
  claim1_theorem (fun _ => 1) ⟨1, 1, some 1, some 2⟩
    (by norm_num [Precinct.simulate, Precinct.candidates, Precinct.make, genVoters,
      GenEntry.toVoter, assignAux, VotingBooths.full, VotingBooths.put,
      Voter.update_startend_times, List.orderedInsert])
